import Mathlib

/-!
Verification development for the OpenMetadata Data Insight Workflow Engine
and the AWS-based secrets-manager base class.

The repository snapshot under scrutiny contains two Python files:

* `ingestion/tests/integration/data_insight/test_data_insight_workflow.py` —
  the integration test for `DataInsightWorkflow` (`create`, `execute`,
  `_get_kpis`, KPI result round-trips, aggregated chart queries);
* `ingestion/src/metadata/utils/secrets/aws_based_secrets_manager.py` —
  the abstract `AWSBasedSecretsManager` base class.

The workflow engine itself (orchestrator, processor, index sink, KPI
evaluator, aggregation query engine) is not part of the snapshot — only its
tests are — so those components are modelled here from the specification
(each such definition is marked `Modelled from the spec:`).  The secrets
manager base class is embedded directly from the source.

Machine integers are modelled as `Nat` (epoch milliseconds never overflow in
practice and Python integers are unbounded); numeric metric values are
modelled as `ℚ` (the source carries them as string-encoded decimals parsed
to floats; all values appearing in the spec and tests are exact decimals).
-/

namespace OpenMetadata

/-! ## Report row data model -/

/-- Modelled from the spec: the enumerated kind of analytic metric
(`DataInsightChartType`); the snapshot's tests exercise the
description-completeness and ownership charts. -/
inductive ChartType where
  | percentageOfEntitiesWithDescriptionByType
  | percentageOfEntitiesWithOwnerByType
  deriving DecidableEq, Repr

/-- Modelled from the spec: an external entity's identity plus the quality
attributes being measured (`EntitySnapshot`, §3). -/
structure EntitySnapshot where
  entityRef : Nat
  entityType : String
  hasDescription : Bool
  hasOwner : Bool
  deriving DecidableEq, Repr

/-- Modelled from the spec: one persisted analytic fact (`ReportRow`, §3).
`timestamp` is epoch milliseconds UTC. -/
structure ReportRow where
  entityRef : Nat
  entityType : String
  chartType : ChartType
  timestamp : Nat
  hasDescription : Bool
  hasOwner : Bool
  deriving DecidableEq, Repr

/-- Milliseconds in one UTC calendar day. -/
def millisPerDay : Nat := 86400000

/-- Truncate an epoch-millisecond timestamp to its UTC ingestion day. -/
def truncDay (ts : Nat) : Nat := ts / millisPerDay

/-- Modelled from the spec: the deterministic document id of a report row —
a pure function of (entityRef, timestamp truncated to the reporting day,
chartType) (§3, §4.4). -/
structure RowId where
  entityRef : Nat
  day : Nat
  chartType : ChartType
  deriving DecidableEq, Repr

/-- Derive the document id of a report row. -/
def rowId (r : ReportRow) : RowId :=
  ⟨r.entityRef, truncDay r.timestamp, r.chartType⟩

/-! ## Extractor and Processor -/

/-- Modelled from the spec: the Processor turns one `EntitySnapshot` into the
report row for one chart type, attaching the ingestion timestamp (§4.3). -/
def mkRow (ingestionTs : Nat) (ct : ChartType) (s : EntitySnapshot) : ReportRow :=
  { entityRef := s.entityRef
    entityType := s.entityType
    chartType := ct
    timestamp := ingestionTs
    hasDescription := s.hasDescription
    hasOwner := s.hasOwner }

/-- Modelled from the spec: the Processor emits one report row per chart type
applicable to the entity (§4.3); both snapshot charts apply to catalog
entities. -/
def processSnapshot (ingestionTs : Nat) (s : EntitySnapshot) : List ReportRow :=
  [mkRow ingestionTs .percentageOfEntitiesWithDescriptionByType s,
   mkRow ingestionTs .percentageOfEntitiesWithOwnerByType s]

/-- Modelled from the spec: Extractor ∘ Processor over the snapshot set. -/
def processAll (ingestionTs : Nat) (snaps : List EntitySnapshot) : List ReportRow :=
  snaps.flatMap (processSnapshot ingestionTs)

/-! ## Index sink -/

/-- Modelled from the spec: a named, queryable collection of report-row
documents keyed by their derived document id (§4.4). -/
abbrev Index : Type := List (RowId × ReportRow)

/-- The document ids currently present in an index. -/
def keys (idx : Index) : List RowId := idx.map Prod.fst

/-- Number of documents in the index (`hits.total.value`). -/
def docCount (idx : Index) : Nat := List.length idx

/-- Modelled from the spec: `upsert` one row — replace the document with the
same derived id if present, else add a new document (§4.4). -/
def upsertRow (idx : Index) (r : ReportRow) : Index :=
  if rowId r ∈ keys idx then
    idx.map (fun p => if p.1 = rowId r then (p.1, r) else p)
  else
    idx ++ [(rowId r, r)]

/-- Modelled from the spec: submit a batch of report rows to the sink. -/
def upsertAll (idx : Index) (rows : List ReportRow) : Index :=
  rows.foldl upsertRow idx

/-! ## Workflow configuration and the orchestrator's `create` -/

/-- Modelled from the spec: `sink.config` (§6). -/
structure SinkConfig where
  es_host : String
  es_port : Nat
  recreate_indexes : Bool
  deriving DecidableEq, Repr

/-- Modelled from the spec: `source.sourceConfig.config` (§6); its `type` key
is a discriminator and may be absent in a malformed document. -/
structure SourceConfigConfig where
  type : Option String
  deriving DecidableEq, Repr

/-- Modelled from the spec: the `source` section (§6). -/
structure SourceSection where
  type : Option String
  serviceName : Option String
  sourceConfig : Option SourceConfigConfig
  deriving DecidableEq, Repr

/-- Modelled from the spec: the `processor` section (§6). -/
structure ProcessorSection where
  type : Option String
  deriving DecidableEq, Repr

/-- Modelled from the spec: the `sink` section (§6). -/
structure SinkSection where
  type : Option String
  config : Option SinkConfig
  deriving DecidableEq, Repr

/-- Modelled from the spec: `workflowConfig.openMetadataServerConfig` (§6). -/
structure ServerConfig where
  hostPort : String
  authProvider : String
  securityConfig : String
  deriving DecidableEq, Repr

/-- Modelled from the spec: the `workflowConfig` section (§6). -/
structure WorkflowConfigSection where
  openMetadataServerConfig : ServerConfig
  deriving DecidableEq, Repr

/-- Modelled from the spec: a raw ingestion configuration document; each
top-level section may be absent (§6). -/
structure IngestionConfig where
  source : Option SourceSection
  processor : Option ProcessorSection
  sink : Option SinkSection
  workflowConfig : Option WorkflowConfigSection
  deriving DecidableEq, Repr

/-- Raised when a configuration document fails structural validation; carries
the offending config key for diagnosis (§7). -/
structure ParsingConfigurationError where
  configKey : String
  deriving DecidableEq, Repr

/-- Modelled from the spec: the sink discriminators the registry knows
(`"elasticsearch" | other supported sink`, §6). -/
def recognizedSinkTypes : List String := ["elasticsearch"]

/-- Modelled from the spec: a validated data-insight workflow — the stage
parameters retained after `create`'s structural validation. -/
structure DataInsightWorkflow where
  serviceName : String
  sinkType : String
  sinkConfig : SinkConfig
  serverConfig : ServerConfig
  deriving DecidableEq, Repr

/-- Modelled from the spec: `DataInsightWorkflow.create` validates the raw
configuration against the recognized schema (source.type,
source.sourceConfig.config.type, processor.type, sink.type, workflowConfig);
it fails with a `ParsingConfigurationError` naming the offending key when a
required field is absent or a `type` discriminator does not match a known
variant (§4.1, §6). -/
def DataInsightWorkflow.create (cfg : IngestionConfig) :
    Except ParsingConfigurationError DataInsightWorkflow :=
  match cfg.source with
  | none => .error ⟨"source"⟩
  | some src =>
    match src.type with
    | none => .error ⟨"source.type"⟩
    | some srcType =>
      if srcType ≠ "dataInsight" then .error ⟨"source.type"⟩ else
      match src.sourceConfig with
      | none => .error ⟨"source.sourceConfig"⟩
      | some sc =>
        match sc.type with
        | none => .error ⟨"source.sourceConfig.config.type"⟩
        | some scType =>
          if scType ≠ "dataInsight" then .error ⟨"source.sourceConfig.config.type"⟩ else
          match cfg.processor with
          | none => .error ⟨"processor"⟩
          | some proc =>
            match proc.type with
            | none => .error ⟨"processor.type"⟩
            | some procType =>
              if procType ≠ "data-insight-processor" then .error ⟨"processor.type"⟩ else
              match cfg.sink with
              | none => .error ⟨"sink"⟩
              | some snk =>
                match snk.type with
                | none => .error ⟨"sink.type"⟩
                | some snkType =>
                  if ¬ recognizedSinkTypes.contains snkType then .error ⟨"sink.type"⟩ else
                  match snk.config with
                  | none => .error ⟨"sink.config"⟩
                  | some snkCfg =>
                    match cfg.workflowConfig with
                    | none => .error ⟨"workflowConfig"⟩
                    | some wc =>
                      .ok { serviceName := (src.serviceName).getD ""
                            sinkType := snkType
                            sinkConfig := snkCfg
                            serverConfig := wc.openMetadataServerConfig }

/-- Structural validity of a raw configuration, as one boolean: every
required field present and every discriminator recognized. -/
def validConfig (cfg : IngestionConfig) : Bool :=
  match cfg.source, cfg.processor, cfg.sink, cfg.workflowConfig with
  | some src, some proc, some snk, some _ =>
    src.type = some "dataInsight" &&
    (match src.sourceConfig with
     | some sc => sc.type = some "dataInsight"
     | none => false) &&
    proc.type = some "data-insight-processor" &&
    (match snk.type with
     | some t => recognizedSinkTypes.contains t
     | none => false) &&
    (snk.config).isSome
  | _, _, _, _ => false

/-! ## Workflow execution -/

/-- Modelled from the spec: `execute()` runs Extractor → Processor → Index
Sink for the given ingestion timestamp; when the sink configuration requests
`recreate_indexes` the prior index contents are discarded first (§4.1,
§4.4). -/
def DataInsightWorkflow.execute (w : DataInsightWorkflow) (ingestionTs : Nat)
    (snaps : List EntitySnapshot) (prior : Index) : Index :=
  upsertAll (if w.sinkConfig.recreate_indexes then [] else prior)
    (processAll ingestionTs snaps)

/-! ## Chart registry and aggregation query engine -/

/-- Modelled from the spec: one chart-type-specific aggregated value; a
closed tagged-variant type with one variant per known chart type, each
carrying its own field set (§3, §9). -/
inductive ChartDatum where
  | descriptionByType (entityType : String) (entityCount : Nat)
      (completedDescription : Nat) (completedDescriptionFraction : ℚ)
  | ownerByType (entityType : String) (entityCount : Nat)
      (hasOwner : Nat) (hasOwnerFraction : ℚ)
  deriving DecidableEq, Repr

/-- The chart type a datum's concrete variant belongs to. -/
def datumChartType : ChartDatum → ChartType
  | .descriptionByType _ _ _ _ => .percentageOfEntitiesWithDescriptionByType
  | .ownerByType _ _ _ _ => .percentageOfEntitiesWithOwnerByType

/-- Entity count carried by a datum (the aggregation weight). -/
def datumCount : ChartDatum → Nat
  | .descriptionByType _ n _ _ => n
  | .ownerByType _ n _ _ => n

/-- The per-entity-type fraction carried by a datum. -/
def datumFraction : ChartDatum → ℚ
  | .descriptionByType _ _ _ f => f
  | .ownerByType _ _ _ f => f

/-- The distinct entity types appearing among a set of report rows. -/
def entityTypesOf (rows : List ReportRow) : List String :=
  (rows.map (·.entityType)).dedup

/-- Modelled from the spec: group report rows by entity type — one group per
distinct entity type, holding that type's rows. -/
def groupByType (rows : List ReportRow) : List (String × List ReportRow) :=
  (entityTypesOf rows).map
    (fun t => (t, rows.filter (fun r => decide (r.entityType = t))))

/-- The description-completeness datum of one entity-type group. -/
def descDatum (g : String × List ReportRow) : ChartDatum :=
  .descriptionByType g.1 g.2.length (g.2.countP (·.hasDescription))
    ((g.2.countP (·.hasDescription) : ℚ) / (g.2.length : ℚ))

/-- The ownership datum of one entity-type group. -/
def ownerDatum (g : String × List ReportRow) : ChartDatum :=
  .ownerByType g.1 g.2.length (g.2.countP (·.hasOwner))
    ((g.2.countP (·.hasOwner) : ℚ) / (g.2.length : ℚ))

/-- Modelled from the spec: the Chart Registry binds each chart type to its
own aggregation formula over the in-range rows (§2, §4.2). -/
def computeChart (ct : ChartType) (rows : List ReportRow) : List ChartDatum :=
  match ct with
  | .percentageOfEntitiesWithDescriptionByType => (groupByType rows).map descDatum
  | .percentageOfEntitiesWithOwnerByType => (groupByType rows).map ownerDatum

/-- Raised by time-windowed queries when `startTs > endTs` (§7). -/
inductive AggregationError where
  | invalidRange (startTs endTs : Nat)
  deriving DecidableEq, Repr

/-- Modelled from the spec: the aggregated result document for one chart
query (`DataInsightChartResult`, §3). -/
structure DataInsightChartResult where
  chartType : ChartType
  data : List ChartDatum
  deriving DecidableEq, Repr

/-- The documents of the index whose timestamp falls in the inclusive window
and whose chart type matches the request (§4.2). -/
def rowsInRange (idx : Index) (startTs endTs : Nat) (ct : ChartType) : List ReportRow :=
  (idx.map Prod.snd).filter
    (fun r => decide (startTs ≤ r.timestamp ∧ r.timestamp ≤ endTs ∧ r.chartType = ct))

/-- Modelled from the spec: the Aggregation Query Engine —
`aggregate(startTs, endTs, chartType, indexName)` requires `startTs ≤ endTs`
(else `InvalidRange`), restricts the index to documents whose timestamp falls
in the inclusive window, and applies the chart's aggregation formula (§4.2). -/
def aggregate (idx : Index) (startTs endTs : Nat) (ct : ChartType) :
    Except AggregationError DataInsightChartResult :=
  if startTs > endTs then .error (.invalidRange startTs endTs)
  else .ok ⟨ct, computeChart ct (rowsInRange idx startTs endTs ct)⟩

/-- The single aggregated value of a chart result: the mean of the per-type
fractions weighted by entity count (§4.2). -/
def overallValue (res : DataInsightChartResult) : ℚ :=
  (res.data.map (fun d => (datumCount d : ℚ) * datumFraction d)).sum /
    (res.data.map (fun d => (datumCount d : ℚ))).sum

/-! ## KPI model and evaluator -/

/-- Modelled from the spec: the comparison-rule discriminator of a KPI. -/
inductive MetricType where
  | PERCENTAGE
  | NUMBER
  deriving DecidableEq, Repr

/-- Modelled from the spec: `KpiTarget` (§3) — at creation time `value` is
the goal and `targetMet` is unset; in a result `targetMet` carries the
achieved state.  `value` is a string-encoded number, as in the source
(e.g. `"0.63"`). -/
structure KpiTarget where
  name : String
  value : String
  targetMet : Option Bool
  deriving DecidableEq, Repr

/-- Numeric value of a decimal digit. -/
def digitVal? (c : Char) : Option Nat :=
  if c.isDigit then some (c.toNat - Char.toNat (Char.ofNat 48)) else none

/-- Read a digit string as a natural number (empty reads as 0). -/
def digitsValAux : Nat → List Char → Option Nat
  | acc, [] => some acc
  | acc, c :: cs =>
    match digitVal? c with
    | some d => digitsValAux (acc * 10 + d) cs
    | none => none

/-- Split a character list at the first decimal point. -/
def breakDot : List Char → List Char × List Char
  | [] => ([], [])
  | c :: cs =>
    if c = Char.ofNat 46 then ([], cs)
    else
      let (a, b) := breakDot cs
      (c :: a, b)

/-- Parse a string-encoded decimal number (e.g. `"0.63"`) into an unreduced
fraction numerator/denominator pair (e.g. `(63, 100)`). -/
def parseFraction (s : String) : Option (Nat × Nat) :=
  let (ip, fp) := breakDot s.toList
  match digitsValAux 0 ip, digitsValAux 0 fp with
  | some i, some f => some (i * 10 ^ fp.length + f, 10 ^ fp.length)
  | _, _ => none

/-- Modelled from the spec: `Kpi` (§3). -/
structure Kpi where
  name : String
  dataInsightChart : ChartType
  metricType : MetricType
  targetDefinition : List KpiTarget
  deriving DecidableEq, Repr

/-- Modelled from the spec: `KpiResult` (§3). -/
structure KpiResult where
  timestamp : Nat
  kpiFqn : String
  targetResult : List KpiTarget
  deriving DecidableEq, Repr

/-- Modelled from the spec: KPI evaluation failure kinds (§7): an invalid
window, no data point for the KPI's chart type in range, or a target whose
string-encoded goal value cannot be read as a number. -/
inductive KpiEvaluationError where
  | invalidRange (startTs endTs : Nat)
  | insufficientData (ct : ChartType)
  | malformedTarget (name : String)
  deriving DecidableEq, Repr

/-- The metric name each chart's aggregated value is published under, used to
match a KPI target by name (§4.5). -/
def metricChart (name : String) : Option ChartType :=
  if name = "completedDescriptionFraction" then
    some .percentageOfEntitiesWithDescriptionByType
  else if name = "hasOwnerFraction" then
    some .percentageOfEntitiesWithOwnerByType
  else none

/-- The achieved-count field of a datum (entities meeting the chart's
quality attribute in that entity-type group). -/
def datumMetric : ChartDatum → Nat
  | .descriptionByType _ _ c _ => c
  | .ownerByType _ _ c _ => c

/-- Total achieved count across an aggregated result's data. -/
def totalMetric (data : List ChartDatum) : Nat := (data.map datumMetric).sum

/-- Total entity count across an aggregated result's data. -/
def totalCount (data : List ChartDatum) : Nat := (data.map datumCount).sum

/-- Modelled from the spec: extract the achieved numeric value for one target
from the aggregated result, matching by target name (§4.5); the value is the
unreduced fraction (achieved entities, total entities), whose ratio is the
weighted mean the chart publishes. -/
def extractAchieved (name : String) (res : DataInsightChartResult) :
    Option (Nat × Nat) :=
  match metricChart name with
  | some ct =>
    if res.chartType = ct then some (totalMetric res.data, totalCount res.data)
    else none
  | none => none

/-- Modelled from the spec: the meets-or-exceeds comparison rule selected by
the metric type (PERCENTAGE: achieved ≥ target, both read as fractions)
(§4.5); fractions are compared by integer cross-multiplication. -/
def meetsTarget (mt : MetricType) (achieved : Nat × Nat)
    (targetNum targetDen : Nat) : Bool :=
  match mt with
  | .PERCENTAGE => decide (targetNum * achieved.2 ≤ achieved.1 * targetDen)
  | .NUMBER => decide (targetNum * achieved.2 ≤ achieved.1 * targetDen)

/-- Modelled from the spec: compute the achieved state of each target of a
KPI from the aggregated result; a target whose metric cannot be matched in
the result is insufficient data to judge (§4.5). -/
def evalTargets (mt : MetricType) (res : DataInsightChartResult) :
    List KpiTarget → Except KpiEvaluationError (List KpiTarget)
  | [] => .ok []
  | t :: ts =>
    match parseFraction t.value with
    | none => .error (.malformedTarget t.name)
    | some (num, den) =>
      match extractAchieved t.name res with
      | none => .error (.insufficientData res.chartType)
      | some a =>
        match evalTargets mt res ts with
        | .error e => .error e
        | .ok rs => .ok ({ t with targetMet := some (meetsTarget mt a num den) } :: rs)

/-- Modelled from the spec: `evaluate(kpi, startTs, endTs)` runs `aggregate`
for the KPI's chart over the window, fails with `InsufficientData` when the
result has no data point for that chart type, and otherwise sets each
target's `targetMet` per the metric type's comparison rule (§4.5). -/
def evaluate (idx : Index) (kpi : Kpi) (startTs endTs : Nat) :
    Except KpiEvaluationError KpiResult :=
  match aggregate idx startTs endTs kpi.dataInsightChart with
  | .error (.invalidRange s e) => .error (.invalidRange s e)
  | .ok res =>
    if res.data.isEmpty then .error (.insufficientData kpi.dataInsightChart)
    else
      match evalTargets kpi.metricType res kpi.targetDefinition with
      | .error e => .error e
      | .ok ts => .ok ⟨endTs, kpi.name, ts⟩

/-! ## External catalog-client capability -/

/-- Modelled from the spec: the externally owned catalog state the client
capability exposes — registered KPI definitions and the persisted, append-only
KPI result time series (§3, §6). -/
structure CatalogState where
  kpis : List Kpi
  kpiResults : List (String × KpiResult)
  deriving DecidableEq, Repr

/-- Modelled from the spec: `addKpiResult(fqn, KpiResult)` appends one result
to the KPI's time series (§6). -/
def addKpiResult (st : CatalogState) (fqn : String) (r : KpiResult) : CatalogState :=
  { st with kpiResults := st.kpiResults ++ [(fqn, r)] }

/-- Modelled from the spec: `getKpiResult(fqn, startTs, endTs)` returns the
persisted results of that KPI whose timestamp falls in the inclusive
window (§6). -/
def getKpiResult (st : CatalogState) (fqn : String) (startTs endTs : Nat) :
    List KpiResult :=
  (st.kpiResults.filter
    (fun p => decide (p.1 = fqn ∧ startTs ≤ p.2.timestamp ∧ p.2.timestamp ≤ endTs))).map
    Prod.snd

/-- Modelled from the spec: the evaluator persists the resulting `KpiResult`
via the catalog client, keyed by the KPI's fully-qualified name; evaluation
errors do not mutate any persisted KpiResult (§4.5, §7). -/
def evaluateAndPersist (st : CatalogState) (idx : Index) (kpi : Kpi)
    (startTs endTs : Nat) : CatalogState × Except KpiEvaluationError KpiResult :=
  match evaluate idx kpi startTs endTs with
  | .error err => (st, .error err)
  | .ok r => (addKpiResult st kpi.name r, .ok r)

/-- Modelled from the spec: `_get_kpis()` returns the KPI definitions
currently registered, as fetched from the catalog-client capability (§4.1). -/
def DataInsightWorkflow._get_kpis (_w : DataInsightWorkflow) (st : CatalogState) :
    List Kpi :=
  st.kpis

/-! ## AWS-based secrets manager (embedded from
`ingestion/src/metadata/utils/secrets/aws_based_secrets_manager.py`) -/

/-- The provider discriminator passed to the base constructor
(`SecretsManagerProvider`); its structure is external to the snapshot, so it
is embedded opaquely as its wire name. -/
abbrev SecretsManagerProvider : Type := String

/-- Optional AWS credentials handed to the client factory; external to the
snapshot, embedded as the fields the config schema names. -/
structure AWSCredentials where
  awsAccessKeyId : Option String
  awsSecretAccessKey : Option String
  awsRegion : String
  deriving DecidableEq, Repr

/-- Failure kinds of the secrets capability (`resolve` fails
NotFound/AccessDenied, §6). -/
inductive SecretsError where
  | notFound (secretId : String)
  | accessDenied (secretId : String)
  deriving DecidableEq, Repr

/-- `AWSBasedSecretsManager`: the state of a constructed instance.  The class
is abstract — `get_string_value` is an `@abstractmethod` — so every usable
instance carries a concrete `get_string_value` implementation; that mandatory
method is embedded as a function-valued field, over the provider-specific
client type `C`. -/
structure AWSBasedSecretsManager (C : Type) where
  provider : SecretsManagerProvider
  client : C
  get_string_value : String → Except SecretsError String

/-- `AWSBasedSecretsManager.__init__`: stores the provider and eagerly builds
the AWS service client via `AWSClient(credentials).get_client(client)`.  The
client factory is the external collaborator, passed as `getClient` (it may
fail with a provider error `E`); the subclass's `get_string_value`
implementation completes the instance. -/
def AWSBasedSecretsManager.init {C E : Type}
    (getClient : Option AWSCredentials → String → Except E C)
    (credentials : Option AWSCredentials) (client : String)
    (provider : SecretsManagerProvider)
    (get_string_value : String → Except SecretsError String) :
    Except E (AWSBasedSecretsManager C) :=
  (getClient credentials client).map
    (fun c => ⟨provider, c, get_string_value⟩)

/-! ## Sink lemmas: keys, document counts, idempotence -/

theorem upsertAll_nil (idx : Index) : upsertAll idx [] = idx := rfl

theorem upsertAll_cons (idx : Index) (r : ReportRow) (rows : List ReportRow) :
    upsertAll idx (r :: rows) = upsertAll (upsertRow idx r) rows := rfl

theorem keys_upsertRow (idx : Index) (r : ReportRow) :
    keys (upsertRow idx r) =
      if rowId r ∈ keys idx then keys idx else keys idx ++ [rowId r] := by
  unfold upsertRow keys
  split
  · rw [List.map_map]
    exact List.map_congr_left
      (fun p _ => by by_cases h : p.1 = rowId r <;> simp [h])
  · simp

theorem length_upsertRow (idx : Index) (r : ReportRow) :
    (upsertRow idx r).length =
      if rowId r ∈ keys idx then idx.length else idx.length + 1 := by
  unfold upsertRow
  split <;> simp

theorem mem_keys_upsertAll (rows : List ReportRow) :
    ∀ (idx : Index) (x : RowId),
      x ∈ keys (upsertAll idx rows) ↔ x ∈ keys idx ∨ x ∈ rows.map rowId := by
  induction rows with
  | nil => intro idx x; simp [upsertAll_nil]
  | cons r rows ih =>
    intro idx x
    rw [upsertAll_cons, ih, keys_upsertRow]
    by_cases h : rowId r ∈ keys idx
    · simp only [if_pos h, List.map_cons, List.mem_cons]
      constructor
      · rintro (hx | hx)
        · exact Or.inl hx
        · exact Or.inr (Or.inr hx)
      · rintro (hx | hx | hx)
        · exact Or.inl hx
        · exact Or.inl (hx ▸ h)
        · exact Or.inr hx
    · simp only [if_neg h, List.mem_append, List.mem_singleton, List.map_cons,
        List.mem_cons]
      tauto

theorem nodup_keys_upsertAll (rows : List ReportRow) :
    ∀ idx : Index, (keys idx).Nodup → (keys (upsertAll idx rows)).Nodup := by
  induction rows with
  | nil => intro idx h; simpa [upsertAll_nil] using h
  | cons r rows ih =>
    intro idx h
    rw [upsertAll_cons]
    refine ih _ ?_
    rw [keys_upsertRow]
    by_cases hm : rowId r ∈ keys idx
    · simpa [hm] using h
    · simp only [if_neg hm]
      rw [List.nodup_append]
      exact ⟨h, List.nodup_singleton _, by simpa using fun hx => hm hx⟩

theorem length_upsertAll_of_mem (rows : List ReportRow) :
    ∀ idx : Index, (∀ x ∈ rows.map rowId, x ∈ keys idx) →
      (upsertAll idx rows).length = idx.length := by
  induction rows with
  | nil => intro idx _; rfl
  | cons r rows ih =>
    intro idx h
    have hr : rowId r ∈ keys idx := h _ (by simp)
    rw [upsertAll_cons]
    have hkeys : keys (upsertRow idx r) = keys idx := by
      rw [keys_upsertRow, if_pos hr]
    have hlen : (upsertRow idx r).length = idx.length := by
      rw [length_upsertRow, if_pos hr]
    rw [ih (upsertRow idx r) (fun x hx => hkeys ▸ h x (by simp [hx])), hlen]

theorem docCount_upsertAll_nil (rows : List ReportRow) :
    docCount (upsertAll [] rows) = (rows.map rowId).toFinset.card := by
  have h1 : (keys (upsertAll [] rows)).Nodup :=
    nodup_keys_upsertAll rows [] (by simp [keys])
  have h2 : ∀ x, x ∈ keys (upsertAll [] rows) ↔ x ∈ rows.map rowId := by
    intro x
    rw [mem_keys_upsertAll]
    simp [keys]
  have h3 : (keys (upsertAll [] rows)).toFinset = (rows.map rowId).toFinset := by
    ext x
    simp [List.mem_toFinset, h2]
  calc docCount (upsertAll [] rows) = (keys (upsertAll [] rows)).length := by
        simp [docCount, keys]
    _ = (keys (upsertAll [] rows)).toFinset.card :=
        (List.toFinset_card_of_nodup h1).symm
    _ = (rows.map rowId).toFinset.card := by rw [h3]

theorem mem_upsertAll (rows : List ReportRow) :
    ∀ (idx : Index) (p : RowId × ReportRow),
      p ∈ upsertAll idx rows → p ∈ idx ∨ p.2 ∈ rows := by
  induction rows with
  | nil => intro idx p hp; exact Or.inl hp
  | cons r rows ih =>
    intro idx p hp
    rw [upsertAll_cons] at hp
    rcases ih _ p hp with h | h
    · unfold upsertRow at h
      split at h
      · rcases List.mem_map.1 h with ⟨q, hq, hqe⟩
        by_cases hc : q.1 = rowId r
        · right
          simp only [if_pos hc] at hqe
          rw [← hqe]
          simp
        · left
          simp only [if_neg hc] at hqe
          exact hqe ▸ hq
      · rcases List.mem_append.1 h with h' | h'
        · exact Or.inl h'
        · right
          simp only [List.mem_singleton] at h'
          rw [h']
          simp
    · exact Or.inr (List.mem_cons_of_mem _ h)

theorem rowId_key_upsertAll (rows : List ReportRow) :
    ∀ idx : Index, (∀ p ∈ idx, p.1 = rowId p.2) →
      ∀ p ∈ upsertAll idx rows, p.1 = rowId p.2 := by
  induction rows with
  | nil => intro idx h p hp; exact h p hp
  | cons r rows ih =>
    intro idx h p hp
    rw [upsertAll_cons] at hp
    refine ih _ ?_ p hp
    intro q hq
    unfold upsertRow at hq
    split at hq
    · rcases List.mem_map.1 hq with ⟨q', hq', hqe⟩
      by_cases hc : q'.1 = rowId r
      · simp only [if_pos hc] at hqe
        rw [← hqe]
        simpa using hc
      · simp only [if_neg hc] at hqe
        exact hqe ▸ h q' hq'
    · rcases List.mem_append.1 hq with h' | h'
      · exact h q h'
      · simp only [List.mem_singleton] at h'
        subst h'
        rfl

theorem upsertAll_eq_append (rows : List ReportRow) :
    ∀ idx : Index, (keys idx ++ rows.map rowId).Nodup →
      upsertAll idx rows = idx ++ rows.map (fun r => (rowId r, r)) := by
  induction rows with
  | nil => intro idx _; simp [upsertAll_nil]
  | cons r rows ih =>
    intro idx h
    rw [List.map_cons] at h
    have hmem : rowId r ∉ keys idx := by
      rw [List.nodup_append] at h
      exact fun hx => h.2.2 hx (List.mem_cons_self _ _)
    rw [upsertAll_cons]
    have hrow : upsertRow idx r = idx ++ [(rowId r, r)] := by
      unfold upsertRow
      rw [if_neg hmem]
    rw [hrow, ih]
    · simp
    · have hkeys : keys (idx ++ [(rowId r, r)]) = keys idx ++ [rowId r] := by
        simp [keys]
      rw [hkeys, List.append_assoc]
      simpa using h

/-! ## Processor lemmas -/

theorem keys_processAll (t : Nat) (snaps : List EntitySnapshot) :
    (processAll t snaps).map rowId =
      snaps.flatMap (fun s =>
        [⟨s.entityRef, truncDay t, .percentageOfEntitiesWithDescriptionByType⟩,
         ⟨s.entityRef, truncDay t, .percentageOfEntitiesWithOwnerByType⟩]) := by
  induction snaps with
  | nil => rfl
  | cons s snaps ih => simp_all [processAll, processSnapshot, mkRow, rowId]

theorem timestamp_processAll (t : Nat) (snaps : List EntitySnapshot) :
    ∀ r ∈ processAll t snaps, r.timestamp = t := by
  induction snaps with
  | nil => intro r hr; cases hr
  | cons s snaps ih =>
    intro r hr
    simp only [processAll, List.flatMap_cons, List.mem_append] at hr
    rcases hr with hr | hr
    · simp only [processSnapshot, List.mem_cons, List.mem_singleton] at hr
      rcases hr with hr | hr | hr
      · rw [hr]; rfl
      · rw [hr]; rfl
      · cases hr
    · exact ih r hr

theorem mem_keys_ref (t : Nat) (snaps : List EntitySnapshot) (k : RowId)
    (hk : k ∈ (processAll t snaps).map rowId) :
    k.entityRef ∈ snaps.map (·.entityRef) := by
  rw [keys_processAll] at hk
  rcases List.mem_flatMap.1 hk with ⟨s, hs, hks⟩
  simp only [List.mem_cons, List.mem_singleton] at hks
  rcases hks with h | h | h
  · rw [h]; exact List.mem_map_of_mem _ hs
  · rw [h]; exact List.mem_map_of_mem _ hs
  · cases h

theorem nodup_keys_processAll (t : Nat) (snaps : List EntitySnapshot)
    (hnd : (snaps.map (·.entityRef)).Nodup) :
    ((processAll t snaps).map rowId).Nodup := by
  induction snaps with
  | nil => exact List.nodup_nil
  | cons s snaps ih =>
    rw [List.map_cons, List.nodup_cons] at hnd
    have hrest := ih hnd.2
    have href : ∀ k ∈ (processAll t snaps).map rowId, k.entityRef ≠ s.entityRef :=
      fun k hk he => hnd.1 (he ▸ mem_keys_ref t snaps k hk)
    have hexp : (processAll t (s :: snaps)).map rowId =
        (⟨s.entityRef, truncDay t, .percentageOfEntitiesWithDescriptionByType⟩ : RowId) ::
        (⟨s.entityRef, truncDay t, .percentageOfEntitiesWithOwnerByType⟩ : RowId) ::
        (processAll t snaps).map rowId := by
      rw [keys_processAll, List.flatMap_cons, ← keys_processAll]
      rfl
    rw [hexp]
    refine List.nodup_cons.2 ⟨?_, List.nodup_cons.2 ⟨?_, hrest⟩⟩
    · intro hmem
      rcases List.mem_cons.1 hmem with h | h
      · exact absurd (congrArg RowId.chartType h) (by simp)
      · exact href _ h rfl
    · intro hmem
      exact href _ hmem rfl

theorem rowsInRange_processAll (t s e : Nat) (snaps : List EntitySnapshot)
    (hs : s ≤ t) (he : t ≤ e) :
    rowsInRange ((processAll t snaps).map (fun r => (rowId r, r))) s e
        .percentageOfEntitiesWithDescriptionByType =
      snaps.map (mkRow t .percentageOfEntitiesWithDescriptionByType) := by
  unfold rowsInRange
  rw [List.map_map]
  have hsnd : ((Prod.snd ∘ fun r : ReportRow => (rowId r, r))) = id := rfl
  rw [hsnd, List.map_id]
  induction snaps with
  | nil => rfl
  | cons s0 snaps ih =>
    simp only [processAll, List.flatMap_cons, List.filter_append] at ih ⊢
    rw [ih]
    simp [processSnapshot, List.filter_cons, mkRow, hs, he]

/-! ## Counting lemmas for the grouped aggregation -/

theorem sum_map_ite_one {κ : Type*} [DecidableEq κ] (x : κ) :
    ∀ L : List κ, L.Nodup → x ∈ L →
      (L.map (fun t => if x = t then (1 : Nat) else 0)).sum = 1 := by
  intro L
  induction L with
  | nil => intro _ hx; cases hx
  | cons t L ih =>
    intro hnd hx
    rcases List.nodup_cons.1 hnd with ⟨htL, hndL⟩
    rcases List.mem_cons.1 hx with hx | hx
    · subst hx
      simp only [List.map_cons, List.sum_cons]
      have hz : (L.map (fun u => if x = u then (1 : Nat) else 0)).sum = 0 := by
        apply List.sum_eq_zero
        intro n hn
        rcases List.mem_map.1 hn with ⟨u, hu, heu⟩
        rw [← heu, if_neg]
        intro hxx
        exact htL (hxx ▸ hu)
      rw [hz]
      simp
    · have hxt : x ≠ t := fun h => htL (h ▸ hx)
      simp only [List.map_cons, List.sum_cons, if_neg hxt]
      rw [ih hndL hx]

theorem sum_countP_key {α κ : Type*} [DecidableEq κ] (key : α → κ) (p : α → Bool) :
    ∀ rows : List α,
      (((rows.map key).dedup).map
        (fun t => rows.countP (fun r => p r && decide (key r = t)))).sum
        = rows.countP p := by
  intro rows
  induction rows with
  | nil => simp
  | cons a rows ih =>
    rw [List.map_cons]
    by_cases hmem : key a ∈ rows.map key
    · rw [List.dedup_cons_of_mem hmem]
      have hmapeq : ((rows.map key).dedup).map
            (fun t => (a :: rows).countP (fun r => p r && decide (key r = t)))
          = ((rows.map key).dedup).map
            (fun t => rows.countP (fun r => p r && decide (key r = t))
              + if p a && decide (key a = t) then 1 else 0) :=
        List.map_congr_left (fun t _ => by rw [List.countP_cons])
      rw [hmapeq, List.sum_map_add, ih, List.countP_cons]
      congr 1
      by_cases hpa : p a
      · have hind : ((rows.map key).dedup).map
              (fun t => if p a && decide (key a = t) then (1 : Nat) else 0)
            = ((rows.map key).dedup).map
              (fun t => if key a = t then (1 : Nat) else 0) :=
          List.map_congr_left (fun t _ => by simp [hpa])
        rw [hind,
          sum_map_ite_one (key a) _ (List.nodup_dedup _) (List.mem_dedup.2 hmem)]
        simp [hpa]
      · have hind : ((rows.map key).dedup).map
              (fun t => if p a && decide (key a = t) then (1 : Nat) else 0)
            = ((rows.map key).dedup).map (fun _ => (0 : Nat)) :=
          List.map_congr_left (fun t _ => by simp [hpa])
        rw [hind, List.sum_eq_zero (by simp)]
        simp [hpa]
    · rw [List.dedup_cons_of_not_mem hmem, List.map_cons, List.sum_cons]
      have hhead : (a :: rows).countP (fun r => p r && decide (key r = key a))
          = if p a = true then 1 else 0 := by
        rw [List.countP_cons]
        have h0 : rows.countP (fun r => p r && decide (key r = key a)) = 0 := by
          rw [List.countP_eq_zero]
          intro b hb
          simp only [Bool.and_eq_true, decide_eq_true_eq, not_and]
          intro _ hkb
          exact hmem (hkb ▸ List.mem_map_of_mem _ hb)
        simp [h0]
      have htail : ((rows.map key).dedup).map
            (fun t => (a :: rows).countP (fun r => p r && decide (key r = t)))
          = ((rows.map key).dedup).map
            (fun t => rows.countP (fun r => p r && decide (key r = t))) := by
        apply List.map_congr_left
        intro t ht
        rw [List.countP_cons]
        have hnt : ¬(p a && decide (key a = t)) = true := by
          simp only [Bool.and_eq_true, decide_eq_true_eq, not_and]
          intro _ hat
          exact hmem (hat ▸ List.mem_dedup.1 ht)
        simp [hnt]
      rw [hhead, htail, ih, List.countP_cons]
      omega

theorem sum_group_countP (p : ReportRow → Bool) (rows : List ReportRow) :
    ((groupByType rows).map (fun g => g.2.countP p)).sum = rows.countP p := by
  unfold groupByType entityTypesOf
  rw [List.map_map]
  have hcomp : ((fun g : String × List ReportRow => g.2.countP p) ∘
        (fun t => (t, rows.filter (fun r => decide (r.entityType = t)))))
      = fun t => rows.countP (fun r => p r && decide (r.entityType = t)) := by
    funext t
    simp [Function.comp, List.countP_filter]
  rw [hcomp]
  exact sum_countP_key (·.entityType) p rows

theorem sum_group_length (rows : List ReportRow) :
    ((groupByType rows).map (fun g => g.2.length)).sum = rows.length := by
  have h := sum_group_countP (fun _ => true) rows
  simpa using h

theorem mem_groupByType {rows : List ReportRow} {g : String × List ReportRow}
    (hg : g ∈ groupByType rows) :
    g.2.length ≠ 0 ∧ g.2 = rows.filter (fun r => decide (r.entityType = g.1)) := by
  unfold groupByType entityTypesOf at hg
  rcases List.mem_map.1 hg with ⟨t, ht, he⟩
  rcases List.mem_map.1 (List.mem_dedup.1 ht) with ⟨r, hr, hrt⟩
  constructor
  · rw [← he]
    have : r ∈ rows.filter (fun x => decide (x.entityType = t)) :=
      List.mem_filter.2 ⟨hr, by simp [hrt]⟩
    simpa using List.length_pos.2 (List.ne_nil_of_mem this) |>.ne'
  · rw [← he]

/-! ## Aggregation-value lemmas -/

theorem computeChart_nil (ct : ChartType) : computeChart ct [] = [] := by
  cases ct <;> rfl

theorem datumChartType_computeChart (ct : ChartType) (rows : List ReportRow) :
    ∀ d ∈ computeChart ct rows, datumChartType d = ct := by
  intro d hd
  cases ct <;>
    · simp only [computeChart] at hd
      rcases List.mem_map.1 hd with ⟨g, _, he⟩
      rw [← he]
      rfl

theorem datumCount_computeChart_pos (ct : ChartType) (rows : List ReportRow) :
    ∀ d ∈ computeChart ct rows, 0 < datumCount d := by
  intro d hd
  cases ct <;>
    · simp only [computeChart] at hd
      rcases List.mem_map.1 hd with ⟨g, hg, he⟩
      have hne := (mem_groupByType hg).1
      rw [← he]
      simp only [descDatum, ownerDatum, datumCount]
      omega

theorem totalCount_pos (ct : ChartType) (rows : List ReportRow)
    (hne : computeChart ct rows ≠ []) : 0 < totalCount (computeChart ct rows) := by
  rcases List.exists_mem_of_ne_nil _ hne with ⟨d, hd⟩
  have hpos := datumCount_computeChart_pos ct rows d hd
  unfold totalCount
  calc 0 < datumCount d := hpos
    _ ≤ ((computeChart ct rows).map datumCount).sum :=
      List.single_le_sum (by simp) _ (List.mem_map_of_mem _ hd)

theorem totalMetric_computeChart_desc (rows : List ReportRow) :
    totalMetric (computeChart .percentageOfEntitiesWithDescriptionByType rows)
      = rows.countP (·.hasDescription) := by
  unfold totalMetric computeChart
  rw [List.map_map]
  have hcomp : (datumMetric ∘ descDatum)
      = fun g : String × List ReportRow => g.2.countP (·.hasDescription) := rfl
  rw [hcomp]
  exact sum_group_countP (·.hasDescription) rows

theorem totalCount_computeChart_desc (rows : List ReportRow) :
    totalCount (computeChart .percentageOfEntitiesWithDescriptionByType rows)
      = rows.length := by
  unfold totalCount computeChart
  rw [List.map_map]
  have hcomp : (datumCount ∘ descDatum)
      = fun g : String × List ReportRow => g.2.length := rfl
  rw [hcomp]
  exact sum_group_length rows

theorem overallValue_computeChart_desc (rows : List ReportRow) :
    overallValue ⟨.percentageOfEntitiesWithDescriptionByType,
        computeChart .percentageOfEntitiesWithDescriptionByType rows⟩
      = (rows.countP (·.hasDescription) : ℚ) / (rows.length : ℚ) := by
  unfold overallValue computeChart
  simp only
  rw [List.map_map, List.map_map]
  have hnum : (groupByType rows).map
        ((fun d => (datumCount d : ℚ) * datumFraction d) ∘ descDatum)
      = (groupByType rows).map
        (fun g => ((g.2.countP (·.hasDescription) : ℚ))) := by
    apply List.map_congr_left
    intro g hg
    have hne := (mem_groupByType hg).1
    have hq : (g.2.length : ℚ) ≠ 0 := by
      exact_mod_cast hne
    simp only [Function.comp, descDatum, datumCount, datumFraction]
    rw [mul_div_cancel₀ _ hq]
  have hden : (groupByType rows).map
        ((fun d => (datumCount d : ℚ)) ∘ descDatum)
      = (groupByType rows).map (fun g => (g.2.length : ℚ)) := rfl
  rw [hnum, hden]
  have h1 : ((groupByType rows).map
        (fun g => ((g.2.countP (·.hasDescription) : ℚ)))).sum
      = ((rows.countP (·.hasDescription) : ℚ)) := by
    rw [← sum_group_countP (·.hasDescription) rows, Nat.cast_list_sum, List.map_map]
    rfl
  have h2 : ((groupByType rows).map (fun g => (g.2.length : ℚ))).sum
      = ((rows.length : ℚ)) := by
    rw [← sum_group_length rows, Nat.cast_list_sum, List.map_map]
    rfl
  rw [h1, h2]

/-! ## Evaluator lemmas -/

theorem evalTargets_forall₂ (mt : MetricType) (res : DataInsightChartResult) :
    ∀ ts rs : List KpiTarget, evalTargets mt res ts = .ok rs →
      List.Forall₂ (fun t t' => t'.name = t.name ∧ t'.value = t.value ∧
        ∃ num den a, parseFraction t.value = some (num, den) ∧
          extractAchieved t.name res = some a ∧
          t'.targetMet = some (meetsTarget mt a num den)) ts rs := by
  intro ts
  induction ts with
  | nil =>
    intro rs h
    simp only [evalTargets] at h
    cases h
    exact List.Forall₂.nil
  | cons t ts ih =>
    intro rs h
    simp only [evalTargets] at h
    cases hp : parseFraction t.value with
    | none => rw [hp] at h; cases h
    | some nd =>
      obtain ⟨num, den⟩ := nd
      rw [hp] at h
      cases ha : extractAchieved t.name res with
      | none => rw [ha] at h; cases h
      | some a =>
        rw [ha] at h
        cases hrec : evalTargets mt res ts with
        | error err => rw [hrec] at h; cases h
        | ok rs' =>
          rw [hrec] at h
          cases h
          exact List.Forall₂.cons
            ⟨rfl, rfl, num, den, a, hp, ha, rfl⟩ (ih rs' hrec)

theorem evaluate_ok_inv (idx : Index) (kpi : Kpi) (s e : Nat) (res : KpiResult)
    (h : evaluate idx kpi s e = .ok res) :
    ∃ agg, aggregate idx s e kpi.dataInsightChart = .ok agg ∧ agg.data ≠ [] ∧
      evalTargets kpi.metricType agg kpi.targetDefinition = .ok res.targetResult ∧
      res.timestamp = e ∧ res.kpiFqn = kpi.name := by
  unfold evaluate at h
  cases hagg : aggregate idx s e kpi.dataInsightChart with
  | error err =>
    cases err
    rw [hagg] at h
    cases h
  | ok agg =>
    rw [hagg] at h
    simp only at h
    by_cases hemp : agg.data.isEmpty
    · rw [if_pos hemp] at h
      cases h
    · rw [if_neg hemp] at h
      cases hev : evalTargets kpi.metricType agg kpi.targetDefinition with
      | error err => rw [hev] at h; cases h
      | ok ts =>
        rw [hev] at h
        cases h
        exact ⟨agg, rfl, by simpa [List.isEmpty_iff] using hemp, hev, rfl, rfl⟩

theorem parseFraction_den_pos (s : String) (num den : Nat)
    (h : parseFraction s = some (num, den)) : 0 < den := by
  unfold parseFraction at h
  rcases hbd : breakDot s.toList with ⟨ip, fp⟩
  rw [hbd] at h
  simp only at h
  cases h1 : digitsValAux 0 ip with
  | none => rw [h1] at h; cases h
  | some i =>
    cases h2 : digitsValAux 0 fp with
    | none => rw [h1, h2] at h; cases h
    | some f =>
      rw [h1, h2] at h
      simp only [Option.some.injEq, Prod.mk.injEq] at h
      rw [← h.2]
      exact pow_pos (by norm_num) _

theorem extractAchieved_inv (name : String) (res : DataInsightChartResult)
    (a : Nat × Nat) (h : extractAchieved name res = some a) :
    a = (totalMetric res.data, totalCount res.data) := by
  unfold extractAchieved at h
  cases hm : metricChart name with
  | none => rw [hm] at h; cases h
  | some ct =>
    rw [hm] at h
    simp only at h
    by_cases hc : res.chartType = ct
    · rw [if_pos hc] at h
      cases h
      rfl
    · rw [if_neg hc] at h
      cases h

theorem aggregate_ok_inv (idx : Index) (s e : Nat) (ct : ChartType)
    (agg : DataInsightChartResult) (h : aggregate idx s e ct = .ok agg) :
    s ≤ e ∧ agg = ⟨ct, computeChart ct (rowsInRange idx s e ct)⟩ := by
  unfold aggregate at h
  by_cases hse : s > e
  · rw [if_pos hse] at h
    cases h
  · rw [if_neg hse] at h
    cases h
    exact ⟨by omega, rfl⟩

theorem meetsTarget_percentage_iff (m n num den : Nat) (hn : 0 < n)
    (hd : 0 < den) :
    meetsTarget .PERCENTAGE (m, n) num den = true ↔
      (num : ℚ) / (den : ℚ) ≤ (m : ℚ) / (n : ℚ) := by
  unfold meetsTarget
  simp only [decide_eq_true_eq]
  rw [div_le_div_iff₀ (by exact_mod_cast hd) (by exact_mod_cast hn)]
  exact_mod_cast Iff.rfl

theorem computeChart_ne_nil (ct : ChartType) (rows : List ReportRow)
    (h : rows ≠ []) : computeChart ct rows ≠ [] := by
  cases ct <;>
    simp [computeChart, groupByType, entityTypesOf, List.dedup_eq_nil, h]

/-! ## Orchestrator validation lemmas -/

theorem valid_of_create_ok (cfg : IngestionConfig) (w : DataInsightWorkflow)
    (h : DataInsightWorkflow.create cfg = .ok w) : validConfig cfg = true := by
  unfold DataInsightWorkflow.create at h
  repeat' split at h
  all_goals simp_all [validConfig]

theorem create_ok_of_valid (cfg : IngestionConfig) (h : validConfig cfg = true) :
    ∃ w, DataInsightWorkflow.create cfg = .ok w := by
  obtain ⟨src, proc, snk, wc⟩ := cfg
  cases src with
  | none => simp [validConfig] at h
  | some src =>
  cases proc with
  | none => simp [validConfig] at h
  | some proc =>
  cases snk with
  | none => simp [validConfig] at h
  | some snk =>
  cases wc with
  | none => simp [validConfig] at h
  | some wc =>
  cases hsc : src.sourceConfig with
  | none => simp [validConfig, hsc] at h
  | some sc =>
  simp only [validConfig, hsc, Bool.and_eq_true, decide_eq_true_eq] at h
  obtain ⟨⟨⟨⟨h1, h2⟩, h3⟩, h4⟩, h5⟩ := h
  cases hst : snk.type with
  | none => rw [hst] at h4; cases h4
  | some snkType =>
  rw [hst] at h4
  cases hcfg : snk.config with
  | none => rw [hcfg] at h5; simp at h5
  | some snkCfg =>
  simp only at h4
  refine ⟨⟨src.serviceName.getD "", snkType, snkCfg,
    wc.openMetadataServerConfig⟩, ?_⟩
  have h4m : snkType ∈ recognizedSinkTypes := by
    simpa using h4
  simp [DataInsightWorkflow.create, h1, h2, h3, hsc, hst, hcfg, h4, h4m]

theorem execute_eq (w : DataInsightWorkflow) (t : Nat)
    (snaps : List EntitySnapshot) (prior : Index) :
    w.execute t snaps prior =
      upsertAll (if w.sinkConfig.recreate_indexes then [] else prior)
        (processAll t snaps) := rfl

/-! ## Claim theorems -/

/-- C1: for every configuration in which `source.sourceConfig.config.type` is
not the recognized discriminator (e.g. `"Foo"`), or a required field
(`source.type`, `processor.type`, `sink.type`, `workflowConfig`, or an
enclosing section) is absent, `DataInsightWorkflow.create` fails with a
`ParsingConfigurationError` and never returns a workflow. -/
theorem create_rejects_invalid_config (cfg : IngestionConfig)
    (h : cfg.source = none ∨ cfg.processor = none ∨ cfg.sink = none ∨
         cfg.workflowConfig = none ∨
         (∃ src sc, cfg.source = some src ∧ src.sourceConfig = some sc ∧
           sc.type ≠ some "dataInsight") ∨
         (∃ src, cfg.source = some src ∧ src.type = none) ∨
         (∃ proc, cfg.processor = some proc ∧ proc.type = none) ∨
         (∃ snk, cfg.sink = some snk ∧ snk.type = none)) :
    (∃ err, DataInsightWorkflow.create cfg = .error err) ∧
      ∀ w, DataInsightWorkflow.create cfg ≠ .ok w := by
  have hval : validConfig cfg = false := by
    obtain ⟨src, proc, snk, wc⟩ := cfg
    rcases h with h | h | h | h | ⟨s, sc, hs, hsc, hty⟩ | ⟨s, hs, hty⟩ |
        ⟨p, hp, hty⟩ | ⟨k, hk, hty⟩ <;>
      cases src <;> cases proc <;> cases snk <;> cases wc <;>
        simp_all [validConfig]
  have hnotok : ∀ w, DataInsightWorkflow.create cfg ≠ .ok w := by
    intro w hw
    rw [valid_of_create_ok cfg w hw] at hval
    cases hval
  refine ⟨?_, hnotok⟩
  cases hc : DataInsightWorkflow.create cfg with
  | error err => exact ⟨err, rfl⟩
  | ok w => exact absurd hc (hnotok w)

/-- C2: executing twice on the same ingestion day is idempotent — starting
from an empty index, the document count after the second run equals the count
after the first run, and that count is the number of distinct
(entity, chartType, day) combinations, i.e. of distinct derived row ids. -/
theorem execute_idempotent_same_day (w : DataInsightWorkflow)
    (snaps : List EntitySnapshot) (t1 t2 : Nat)
    (hday : truncDay t1 = truncDay t2) :
    docCount (w.execute t2 snaps (w.execute t1 snaps [])) =
      docCount (w.execute t1 snaps []) ∧
    docCount (w.execute t1 snaps []) =
      ((processAll t1 snaps).map rowId).toFinset.card := by
  have hids : (processAll t2 snaps).map rowId =
      (processAll t1 snaps).map rowId := by
    rw [keys_processAll, keys_processAll, ← hday]
  have hfirst : w.execute t1 snaps [] = upsertAll [] (processAll t1 snaps) := by
    rw [execute_eq, ite_self]
  constructor
  · rw [hfirst, execute_eq]
    by_cases hrec : w.sinkConfig.recreate_indexes
    · rw [if_pos hrec, docCount_upsertAll_nil, docCount_upsertAll_nil, hids]
    · rw [if_neg hrec]
      unfold docCount
      apply length_upsertAll_of_mem
      intro x hx
      rw [hids] at hx
      rw [mem_keys_upsertAll]
      exact Or.inr hx
  · rw [hfirst]
    exact docCount_upsertAll_nil _

/-- C3: for a KPI with metric type PERCENTAGE, a successful evaluation sets
each target's `targetMet` to true exactly when the achieved value extracted
from the aggregated result (matched by target name) meets or exceeds the
target's value, both read as fractions. -/
theorem evaluate_percentage_targetMet (idx : Index) (kpi : Kpi) (s e : Nat)
    (res : KpiResult) (hmt : kpi.metricType = .PERCENTAGE)
    (hok : evaluate idx kpi s e = .ok res) :
    ∃ agg, aggregate idx s e kpi.dataInsightChart = .ok agg ∧
      List.Forall₂ (fun t t' => t'.name = t.name ∧ t'.value = t.value ∧
        ∃ num den m n, parseFraction t.value = some (num, den) ∧
          extractAchieved t.name agg = some (m, n) ∧
          (t'.targetMet = some true ↔ (num : ℚ) / (den : ℚ) ≤ (m : ℚ) / (n : ℚ)) ∧
          (t'.targetMet = some false ↔
            ¬ ((num : ℚ) / (den : ℚ) ≤ (m : ℚ) / (n : ℚ))))
        kpi.targetDefinition res.targetResult := by
  rcases evaluate_ok_inv idx kpi s e res hok with ⟨agg, hagg, hne, hev, _, _⟩
  rcases aggregate_ok_inv idx s e kpi.dataInsightChart agg hagg with ⟨_, haggeq⟩
  refine ⟨agg, hagg, ?_⟩
  have hpos : 0 < totalCount agg.data := by
    rw [haggeq]
    exact totalCount_pos _ _ (by rw [haggeq] at hne; exact hne)
  refine (evalTargets_forall₂ kpi.metricType agg kpi.targetDefinition
    res.targetResult hev).imp ?_
  rintro t t' ⟨hname, hvalue, num, den, a, hp, ha, hmet⟩
  have hden := parseFraction_den_pos t.value num den hp
  have han := extractAchieved_inv t.name agg a ha
  have hn : 0 < a.2 := by rw [han]; exact hpos
  refine ⟨hname, hvalue, num, den, a.1, a.2, hp, by simpa using ha, ?_, ?_⟩
  · rw [hmet, hmt]
    constructor
    · intro hx
      exact (meetsTarget_percentage_iff a.1 a.2 num den hn hden).1
        (by simpa using hx)
    · intro hx
      have := (meetsTarget_percentage_iff a.1 a.2 num den hn hden).2 hx
      simp [this]
  · rw [hmet, hmt]
    constructor
    · intro hx hle
      have := (meetsTarget_percentage_iff a.1 a.2 num den hn hden).2 hle
      rw [this] at hx
      cases hx
    · intro hx
      have : meetsTarget .PERCENTAGE (a.1, a.2) num den = false := by
        cases hb : meetsTarget .PERCENTAGE (a.1, a.2) num den
        · rfl
        · exact absurd ((meetsTarget_percentage_iff a.1 a.2 num den hn hden).1 hb)
            hx
      simp [this]

/-- C4: when the window holds no report row for the KPI's chart type, the
evaluator fails with `InsufficientData` — it neither reports
`targetMet = false` nor mutates any persisted KpiResult. -/
theorem evaluate_insufficient_data (st : CatalogState) (idx : Index) (kpi : Kpi)
    (s e : Nat) (hse : s ≤ e)
    (hempty : rowsInRange idx s e kpi.dataInsightChart = []) :
    evaluateAndPersist st idx kpi s e =
      (st, .error (.insufficientData kpi.dataInsightChart)) := by
  unfold evaluateAndPersist evaluate aggregate
  rw [if_neg (by omega)]
  simp only [hempty, computeChart_nil]
  rfl

/-- C5: after executing a workflow with `recreate_indexes = true` on a
non-empty snapshot set, the index search reports a positive document count,
and the aggregated description-chart query over a covering window returns a
result with non-empty data, every element of which is of the concrete
variant implied by the requested chart type. -/
theorem execute_populates_index (w : DataInsightWorkflow)
    (snaps : List EntitySnapshot) (prior : Index) (t s e : Nat)
    (hrec : w.sinkConfig.recreate_indexes = true) (hne : snaps ≠ [])
    (hs : s ≤ t) (he : t ≤ e) :
    0 < docCount (w.execute t snaps prior) ∧
    ∃ res, aggregate (w.execute t snaps prior) s e
        .percentageOfEntitiesWithDescriptionByType = .ok res ∧
      res.data ≠ [] ∧
      ∀ d ∈ res.data, datumChartType d =
        .percentageOfEntitiesWithDescriptionByType := by
  have hexe : w.execute t snaps prior = upsertAll [] (processAll t snaps) := by
    unfold DataInsightWorkflow.execute
    rw [if_pos hrec]
  obtain ⟨s0, snaps', rfl⟩ : ∃ s0 snaps', snaps = s0 :: snaps' := by
    cases snaps with
    | nil => exact absurd rfl hne
    | cons a l => exact ⟨a, l, rfl⟩
  have hrowmem : mkRow t .percentageOfEntitiesWithDescriptionByType s0 ∈
      processAll t (s0 :: snaps') := by
    unfold processAll
    rw [List.flatMap_cons]
    exact List.mem_append_left _ (List.mem_cons_self _ _)
  constructor
  · rw [hexe, docCount_upsertAll_nil]
    exact Finset.card_pos.2
      ⟨_, List.mem_toFinset.2 (List.mem_map_of_mem rowId hrowmem)⟩
  · have hkmem : rowId (mkRow t .percentageOfEntitiesWithDescriptionByType s0) ∈
        keys (upsertAll [] (processAll t (s0 :: snaps'))) := by
      rw [mem_keys_upsertAll]
      exact Or.inr (List.mem_map_of_mem rowId hrowmem)
    rcases List.mem_map.1 hkmem with ⟨p, hp, hpk⟩
    have hkey : p.1 = rowId p.2 :=
      rowId_key_upsertAll _ [] (fun q hq => by cases hq) p hp
    have hct : p.2.chartType = .percentageOfEntitiesWithDescriptionByType := by
      have := congrArg RowId.chartType (hkey.symm.trans hpk)
      simpa [rowId, mkRow] using this
    have hrowsmem : p.2 ∈ processAll t (s0 :: snaps') := by
      rcases mem_upsertAll _ [] p hp with h | h
      · cases h
      · exact h
    have hts : p.2.timestamp = t := timestamp_processAll _ _ _ hrowsmem
    have hmemrange : p.2 ∈ rowsInRange (upsertAll [] (processAll t (s0 :: snaps')))
        s e .percentageOfEntitiesWithDescriptionByType := by
      unfold rowsInRange
      refine List.mem_filter.2 ⟨List.mem_map_of_mem Prod.snd hp, ?_⟩
      simp [hts, hct, hs, he]
    refine ⟨⟨.percentageOfEntitiesWithDescriptionByType,
      computeChart .percentageOfEntitiesWithDescriptionByType
        (rowsInRange (w.execute t (s0 :: snaps') prior) s e
          .percentageOfEntitiesWithDescriptionByType)⟩,
      ?_, ?_, ?_⟩
    · unfold aggregate
      rw [if_neg (by omega)]
    · simp only
      rw [hexe]
      exact computeChart_ne_nil _ _ (List.ne_nil_of_mem hmemrange)
    · simp only
      exact datumChartType_computeChart _ _

/-- C6: a KpiResult written via `addKpiResult` with timestamp `t` is returned
by a subsequent `getKpiResult(fqn, start, end)` whenever `start ≤ t ≤ end`;
the returned sequence is non-empty and the written result — with the
`targetMet` values computed at write time — is among it. -/
theorem kpiResult_roundtrip (st : CatalogState) (fqn : String) (r : KpiResult)
    (s e : Nat) (h1 : s ≤ r.timestamp) (h2 : r.timestamp ≤ e) :
    r ∈ getKpiResult (addKpiResult st fqn r) fqn s e ∧
      getKpiResult (addKpiResult st fqn r) fqn s e ≠ [] := by
  have hmem : r ∈ getKpiResult (addKpiResult st fqn r) fqn s e := by
    unfold getKpiResult addKpiResult
    simp only [List.filter_append, List.map_append]
    refine List.mem_append.2 (Or.inr ?_)
    simp [h1, h2]
  exact ⟨hmem, List.ne_nil_of_mem hmem⟩

/-- C7: `aggregate` fails with `InvalidRange` when `startTs > endTs`; with
`startTs = endTs` the selected rows are exactly the index's rows of the
requested chart type whose timestamp equals that instant (bounds are
inclusive); and an in-range window with no matching rows yields a successful
result with an empty data sequence. -/
theorem aggregate_window_spec (idx : Index) (s e : Nat) (ct : ChartType) :
    (s > e → aggregate idx s e ct = .error (.invalidRange s e)) ∧
    (∀ r, r ∈ rowsInRange idx s s ct ↔
      (r ∈ idx.map Prod.snd ∧ r.timestamp = s ∧ r.chartType = ct)) ∧
    (s ≤ e → rowsInRange idx s e ct = [] →
      aggregate idx s e ct = .ok ⟨ct, []⟩) := by
  refine ⟨?_, ?_, ?_⟩
  · intro h
    unfold aggregate
    rw [if_pos h]
  · intro r
    unfold rowsInRange
    rw [List.mem_filter]
    simp only [decide_eq_true_eq]
    constructor
    · rintro ⟨hm, hle, hge, hc⟩
      exact ⟨hm, le_antisymm hge hle, hc⟩
    · rintro ⟨hm, ht, hc⟩
      exact ⟨hm, le_of_eq ht.symm, le_of_eq ht, hc⟩
  · intro hse hnil
    unfold aggregate
    rw [if_neg (by omega), hnil, computeChart_nil]

/-- C8: for a snapshot set of N distinct entities of which M have
descriptions, all ingested inside the queried window, the description-chart
aggregation over that window returns an aggregated value equal to M/N
(exactly, hence within any floating-point tolerance). -/
theorem aggregate_description_fraction (w : DataInsightWorkflow)
    (snaps : List EntitySnapshot) (prior : Index) (t s e : Nat)
    (hrec : w.sinkConfig.recreate_indexes = true)
    (hnd : (snaps.map (·.entityRef)).Nodup) (hs : s ≤ t) (he : t ≤ e) :
    ∃ res, aggregate (w.execute t snaps prior) s e
        .percentageOfEntitiesWithDescriptionByType = .ok res ∧
      overallValue res =
        (snaps.countP (·.hasDescription) : ℚ) / (snaps.length : ℚ) := by
  have hexe : w.execute t snaps prior = upsertAll [] (processAll t snaps) := by
    unfold DataInsightWorkflow.execute
    rw [if_pos hrec]
  have hnod : (keys ([] : Index) ++ (processAll t snaps).map rowId).Nodup := by
    simpa [keys] using nodup_keys_processAll t snaps hnd
  have hidx : upsertAll [] (processAll t snaps) =
      (processAll t snaps).map (fun r => (rowId r, r)) := by
    simpa using upsertAll_eq_append (processAll t snaps) [] hnod
  refine ⟨⟨.percentageOfEntitiesWithDescriptionByType,
    computeChart .percentageOfEntitiesWithDescriptionByType
      (rowsInRange (w.execute t snaps prior) s e
        .percentageOfEntitiesWithDescriptionByType)⟩, ?_, ?_⟩
  · unfold aggregate
    rw [if_neg (by omega)]
  · rw [hexe, hidx, rowsInRange_processAll t s e snaps hs he,
      overallValue_computeChart_desc, List.countP_map, List.length_map]
    rfl

/-- C9: every structurally valid configuration is accepted — `create`
returns a workflow whose `_get_kpis` returns exactly the KPI definitions
registered in the external catalog (and raises nothing). -/
theorem create_valid_returns_workflow (cfg : IngestionConfig)
    (h : validConfig cfg = true) :
    ∃ w, DataInsightWorkflow.create cfg = .ok w ∧
      ∀ st : CatalogState, w._get_kpis st = st.kpis := by
  rcases create_ok_of_valid cfg h with ⟨w, hw⟩
  exact ⟨w, hw, fun st => rfl⟩

/-- C10: `AWSBasedSecretsManager`'s base constructor eagerly builds the AWS
service client from the optional credentials and client-service name: a
client-construction failure surfaces at construction time (no instance is
produced), and a successful construction stores exactly the built client and
the concrete `get_string_value` implementation the (non-abstract) subclass
must supply. -/
theorem awsSecretsManager_eager_client (C E : Type)
    (getClient : Option AWSCredentials → String → Except E C)
    (credentials : Option AWSCredentials) (client : String)
    (provider : SecretsManagerProvider)
    (gsv : String → Except SecretsError String) :
    (∀ err, getClient credentials client = .error err →
      AWSBasedSecretsManager.init getClient credentials client provider gsv
        = .error err) ∧
    (∀ c, getClient credentials client = .ok c →
      AWSBasedSecretsManager.init getClient credentials client provider gsv
        = .ok ⟨provider, c, gsv⟩) ∧
    (∀ m : AWSBasedSecretsManager C,
      AWSBasedSecretsManager.init getClient credentials client provider gsv
        = .ok m → m.get_string_value = gsv) := by
  refine ⟨?_, ?_, ?_⟩
  · intro err h
    unfold AWSBasedSecretsManager.init
    rw [h]
    rfl
  · intro c h
    unfold AWSBasedSecretsManager.init
    rw [h]
    rfl
  · intro m h
    unfold AWSBasedSecretsManager.init at h
    cases hg : getClient credentials client with
    | error err => rw [hg] at h; cases h
    | ok c =>
      rw [hg] at h
      cases h
      rfl

/-! ## Concrete data for the witnesses -/

/-- The server section of the integration test's configuration. -/
def sampleServerConfig : ServerConfig :=
  ⟨"http://localhost:8585/api", "openmetadata", "jwt-token"⟩

/-- The valid ingestion configuration exercised by the integration test. -/
def sampleConfig : IngestionConfig :=
  ⟨some ⟨some "dataInsight", some "dataInsightWorkflow", some ⟨some "dataInsight"⟩⟩,
   some ⟨some "data-insight-processor"⟩,
   some ⟨some "elasticsearch", some ⟨"localhost", 9200, true⟩⟩,
   some ⟨sampleServerConfig⟩⟩

/-- The test's invalid configuration: `sourceConfig.config.type = "Foo"`. -/
def fooConfig : IngestionConfig :=
  ⟨some ⟨some "dataInsight", some "dataInsightWorkflow", some ⟨some "Foo"⟩⟩,
   some ⟨some "data-insight-processor"⟩,
   some ⟨some "elasticsearch", some ⟨"localhost", 9200, true⟩⟩,
   some ⟨sampleServerConfig⟩⟩

/-- The workflow `create` builds from `sampleConfig`. -/
def sampleWorkflow : DataInsightWorkflow :=
  ⟨"dataInsightWorkflow", "elasticsearch", ⟨"localhost", 9200, true⟩,
   sampleServerConfig⟩

/-- Three catalog entities, two of which carry a description. -/
def sampleSnaps : List EntitySnapshot :=
  [⟨1, "table", true, true⟩, ⟨2, "table", false, true⟩, ⟨3, "chart", true, false⟩]

/-- Twenty-five entities of which fourteen have descriptions: the true
aggregated description fraction is 14/25 = 0.56. -/
def lowSnaps : List EntitySnapshot :=
  (List.range 25).map (fun i => ⟨i, "table", decide (i < 14), true⟩)

/-- Ten entities of which seven have descriptions: the true aggregated
description fraction is 7/10 = 0.70. -/
def highSnaps : List EntitySnapshot :=
  (List.range 10).map (fun i => ⟨i, "table", decide (i < 7), true⟩)

/-- Index after ingesting `lowSnaps` at timestamp 1000. -/
def lowIndex : Index := upsertAll [] (processAll 1000 lowSnaps)

/-- Index after ingesting `highSnaps` at timestamp 1000. -/
def highIndex : Index := upsertAll [] (processAll 1000 highSnaps)

/-- The test's KPI: target `completedDescriptionFraction = 0.63`. -/
def kpiCompletedDescription : Kpi :=
  ⟨"CompletedDescription", .percentageOfEntitiesWithDescriptionByType,
   .PERCENTAGE, [⟨"completedDescriptionFraction", "0.63", none⟩]⟩

/-- The evaluation outcome against a 0.56 achieved fraction. -/
def lowKpiResult : KpiResult :=
  ⟨5000, "CompletedDescription",
   [⟨"completedDescriptionFraction", "0.63", some false⟩]⟩

/-- The evaluation outcome against a 0.70 achieved fraction. -/
def highKpiResult : KpiResult :=
  ⟨5000, "CompletedDescription",
   [⟨"completedDescriptionFraction", "0.63", some true⟩]⟩

/-- An external catalog with no registered KPIs or results. -/
def emptyCatalog : CatalogState := ⟨[], []⟩

/-- A client factory whose construction fails (e.g. bad credentials). -/
def failingGetClient : Option AWSCredentials → String → Except String Unit :=
  fun _ _ => .error "invalid AWS credentials"

set_option maxRecDepth 20000

/-! ## Witnesses -/

/-- Witness for C1 at the test's "Foo" configuration. -/
theorem create_rejects_invalid_config_witness :
    (∃ err, DataInsightWorkflow.create fooConfig = .error err) ∧
      ∀ w, DataInsightWorkflow.create fooConfig ≠ .ok w :=
  create_rejects_invalid_config fooConfig
    (Or.inr (Or.inr (Or.inr (Or.inr (Or.inl ⟨_, _, rfl, rfl, by decide⟩)))))

/-- Witness for C2: two runs at timestamps 1000 and 2000 of the same day. -/
theorem execute_idempotent_same_day_witness :
    docCount (sampleWorkflow.execute 2000 sampleSnaps
        (sampleWorkflow.execute 1000 sampleSnaps [])) =
      docCount (sampleWorkflow.execute 1000 sampleSnaps []) ∧
    docCount (sampleWorkflow.execute 1000 sampleSnaps []) =
      ((processAll 1000 sampleSnaps).map rowId).toFinset.card :=
  execute_idempotent_same_day sampleWorkflow sampleSnaps 1000 2000 (by decide)

/-- Witness for C3: the 0.63 target against achieved fractions 0.56
(targetMet = false) and 0.70 (targetMet = true). -/
theorem evaluate_percentage_targetMet_witness :
    (∃ agg, aggregate lowIndex 0 5000
        kpiCompletedDescription.dataInsightChart = .ok agg ∧
      List.Forall₂ (fun t t' => t'.name = t.name ∧ t'.value = t.value ∧
        ∃ num den m n, parseFraction t.value = some (num, den) ∧
          extractAchieved t.name agg = some (m, n) ∧
          (t'.targetMet = some true ↔ (num : ℚ) / (den : ℚ) ≤ (m : ℚ) / (n : ℚ)) ∧
          (t'.targetMet = some false ↔
            ¬ ((num : ℚ) / (den : ℚ) ≤ (m : ℚ) / (n : ℚ))))
        kpiCompletedDescription.targetDefinition lowKpiResult.targetResult) ∧
    (∃ agg, aggregate highIndex 0 5000
        kpiCompletedDescription.dataInsightChart = .ok agg ∧
      List.Forall₂ (fun t t' => t'.name = t.name ∧ t'.value = t.value ∧
        ∃ num den m n, parseFraction t.value = some (num, den) ∧
          extractAchieved t.name agg = some (m, n) ∧
          (t'.targetMet = some true ↔ (num : ℚ) / (den : ℚ) ≤ (m : ℚ) / (n : ℚ)) ∧
          (t'.targetMet = some false ↔
            ¬ ((num : ℚ) / (den : ℚ) ≤ (m : ℚ) / (n : ℚ))))
        kpiCompletedDescription.targetDefinition highKpiResult.targetResult) :=
  ⟨evaluate_percentage_targetMet lowIndex kpiCompletedDescription 0 5000
      lowKpiResult rfl (by rfl),
   evaluate_percentage_targetMet highIndex kpiCompletedDescription 0 5000
      highKpiResult rfl (by rfl)⟩

/-- Witness for C4: an empty index holds no data point for the KPI's chart
in any window. -/
theorem evaluate_insufficient_data_witness :
    evaluateAndPersist emptyCatalog [] kpiCompletedDescription 0 5000 =
      (emptyCatalog, .error (.insufficientData
        kpiCompletedDescription.dataInsightChart)) :=
  evaluate_insufficient_data emptyCatalog [] kpiCompletedDescription 0 5000
    (by decide) rfl

/-- Witness for C5 on the three-entity snapshot set. -/
theorem execute_populates_index_witness :
    0 < docCount (sampleWorkflow.execute 1000 sampleSnaps []) ∧
    ∃ res, aggregate (sampleWorkflow.execute 1000 sampleSnaps []) 0 5000
        .percentageOfEntitiesWithDescriptionByType = .ok res ∧
      res.data ≠ [] ∧
      ∀ d ∈ res.data, datumChartType d =
        .percentageOfEntitiesWithDescriptionByType :=
  execute_populates_index sampleWorkflow sampleSnaps [] 1000 0 5000 rfl
    (by decide) (by decide) (by decide)

/-- Witness for C6 at the test's written KpiResult. -/
theorem kpiResult_roundtrip_witness :
    lowKpiResult ∈ getKpiResult
        (addKpiResult emptyCatalog "CompletedDescription" lowKpiResult)
        "CompletedDescription" 0 10000 ∧
    getKpiResult (addKpiResult emptyCatalog "CompletedDescription" lowKpiResult)
        "CompletedDescription" 0 10000 ≠ [] :=
  kpiResult_roundtrip emptyCatalog "CompletedDescription" lowKpiResult 0 10000
    (by decide) (by decide)

/-- Witness for C7: an inverted window fails with InvalidRange and an empty
in-range window yields an empty data sequence. -/
theorem aggregate_window_spec_witness :
    aggregate [] 5 3 .percentageOfEntitiesWithDescriptionByType =
      .error (.invalidRange 5 3) ∧
    aggregate [] 3 5 .percentageOfEntitiesWithDescriptionByType =
      .ok ⟨.percentageOfEntitiesWithDescriptionByType, []⟩ :=
  ⟨(aggregate_window_spec [] 5 3 .percentageOfEntitiesWithDescriptionByType).1
      (by decide),
   (aggregate_window_spec [] 3 5 .percentageOfEntitiesWithDescriptionByType).2.2
      (by decide) rfl⟩

/-- Witness for C8 on the three-entity snapshot set (M = 2, N = 3). -/
theorem aggregate_description_fraction_witness :
    ∃ res, aggregate (sampleWorkflow.execute 1000 sampleSnaps []) 0 5000
        .percentageOfEntitiesWithDescriptionByType = .ok res ∧
      overallValue res =
        (sampleSnaps.countP (·.hasDescription) : ℚ) / (sampleSnaps.length : ℚ) :=
  aggregate_description_fraction sampleWorkflow sampleSnaps [] 1000 0 5000 rfl
    (by decide) (by decide) (by decide)

/-- Witness for C9 at the test's valid configuration. -/
theorem create_valid_returns_workflow_witness :
    ∃ w, DataInsightWorkflow.create sampleConfig = .ok w ∧
      ∀ st : CatalogState, w._get_kpis st = st.kpis :=
  create_valid_returns_workflow sampleConfig (by decide)

/-- Witness for C10: a failing client factory surfaces its error at
construction time. -/
theorem awsSecretsManager_eager_client_witness :
    AWSBasedSecretsManager.init failingGetClient none "secretsmanager"
      "managed-aws" (fun sid => .error (.notFound sid)) =
      .error "invalid AWS credentials" :=
  (awsSecretsManager_eager_client Unit String failingGetClient none
    "secretsmanager" "managed-aws" (fun sid => .error (.notFound sid))).1
    "invalid AWS credentials" rfl

end OpenMetadata
